import Mathlib

/-!
# Verification of the varcks routing-and-aggregation core

A shallow embedding, in Lean 4, of the routing core of the `varcks` backend:
the sentence splitter (`backend/services/splitter.py`), the access policy
(`backend/core/security.py`, `backend/core/config.py`), the round-robin router
(`backend/services/llm_router.py`), the LangGraph agent nodes
(`backend/services/langgraph_agent.py`) and the chat endpoint's
persistence behaviour (`backend/routers/chat.py`).

Python strings are modelled as `String`/`List Char`; Python dicts that are
built in insertion order and iterated in that order are modelled as ordered
association lists; `async` provider calls are modelled as pure functions
passed in as parameters (`asyncio.gather` preserves the order of its task
list, so dispatch is deterministic in the model).
-/

/-! ## Character classes used by `splitter.py`

`re.split(r'(?<=[.?!])\s+', user_query)` splits on runs of whitespace that
are immediately preceded by `.`, `?` or `!`.  `pySpace` models `\s` (and the
whitespace class used by `str.strip()`) for ASCII input. -/

/-- The characters matched by the regex class `[.?!]` in `splitter.py`. -/
def isTerminal (c : Char) : Bool :=
  c == '.' || c == '?' || c == '!'

/-- The characters matched by `\s` (and stripped by `str.strip()`) on ASCII
input: space, tab, newline, carriage return, vertical tab, form feed. -/
def pySpace (c : Char) : Bool :=
  c == ' ' || c == '\t' || c == '\n' || c == '\r' || c == '\x0b' || c == '\x0c'

/-! ## Words of a string

`wordsOf l` is the list of maximal runs of non-whitespace characters of `l`,
in order.  It is the reference notion of "the words of the query" used to
state that the splitter is lossless modulo whitespace. -/

/-- Accumulating scanner for `wordsOf`: `cur` holds the (reversed) current
word in progress. -/
def wordsAux : List Char → List Char → List (List Char)
  | cur, [] => if cur.isEmpty then [] else [cur.reverse]
  | cur, c :: cs =>
    if pySpace c then
      if cur.isEmpty then wordsAux [] cs else cur.reverse :: wordsAux [] cs
    else wordsAux (c :: cur) cs

/-- The maximal non-whitespace runs of `l`, in order. -/
def wordsOf (l : List Char) : List (List Char) :=
  wordsAux [] l

/-! ## The splitter

`split_prompt` in `backend/services/splitter.py`:

```python
if not user_query:
    return []
sentences = re.split(r'(?<=[.?!])\s+', user_query)
return [sentence.strip() for sentence in sentences if sentence.strip()]
```

`re.split` scans left to right for non-overlapping matches of `\s+` whose
position is immediately preceded by one of `.?!`; because a whitespace run
can only be preceded by a non-whitespace character at its own start, the
delimiters are exactly the maximal whitespace runs whose preceding character
is terminal.  `splitAuxC` implements that scan with one character of
lookahead: in normal mode (`skipping = false`) it accumulates the current
piece and, on seeing a terminal character followed by whitespace, emits the
piece (terminal included) and enters skipping mode; in skipping mode
(`skipping = true`) it consumes the matched whitespace run and then resumes
the scan (a run that reaches the end of input leaves a final empty piece,
exactly as `re.split` does). -/

/-- Predicate `headSpace l`: true when the first character of `l` exists and is
whitespace (the one-character lookahead for the `\s` after `[.?!]`). -/
def headSpace : List Char → Bool
  | [] => false
  | d :: _ => pySpace d

/-- The pieces produced by `re.split(r'(?<=[.?!])\s+', ·)`, via a
two-mode scan; `acc` holds the (reversed) piece in progress. -/
def splitAuxC : Bool → List Char → List Char → List (List Char)
  | _, acc, [] => [acc.reverse]
  | true, acc, c :: cs =>
    if pySpace c then splitAuxC true acc cs
    else if isTerminal c && headSpace cs then (acc.reverse ++ [c]) :: splitAuxC true [] cs
    else splitAuxC false (c :: acc) cs
  | false, acc, c :: cs =>
    if isTerminal c && headSpace cs then (acc.reverse ++ [c]) :: splitAuxC true [] cs
    else splitAuxC false (c :: acc) cs

/-- Model of Python `str.lstrip()`: `l.dropWhile pySpace`. -/
def trimL (l : List Char) : List Char :=
  l.dropWhile pySpace

/-- Python `str.rstrip()`. -/
def trimR (l : List Char) : List Char :=
  (l.reverse.dropWhile pySpace).reverse

/-- Python `str.strip()`: whitespace removed from both ends. -/
def pyStrip (l : List Char) : List Char :=
  trimR (trimL l)

/-- Model of `split_prompt` from `backend/services/splitter.py`: empty input yields
`[]`; otherwise the regex pieces are stripped and the ones that are empty
after stripping are dropped. -/
def split_prompt (s : String) : List String :=
  if s.data.isEmpty then []
  else (((splitAuxC false [] s.data).map pyStrip).filter (fun f => !f.isEmpty)).map String.mk

/-- Joining a list of fragments with single spaces (the reference
recombination used to state losslessness). -/
def joinSpace : List (List Char) → List Char
  | [] => []
  | f :: rest =>
    match rest with
    | [] => f
    | _ :: _ => f ++ ' ' :: joinSpace rest

/-- The no-split-point relation: adjacent characters `a, b` where `a` is terminal
punctuation and `b` is whitespace never occur (the regex of `split_prompt`
would cut between them). -/
def noBreak (a b : Char) : Prop :=
  ¬(isTerminal a = true ∧ pySpace b = true)

/-! ## Model configuration (`backend/core/config.py`)

`Settings.MODEL_CONFIG` is a dict literal built once at process start; it is
iterated in insertion order, so it is modelled as an ordered association
list with exactly the three entries of the source. -/

/-- One value of the `MODEL_CONFIG` dict: provider id, capability keywords,
and the subscription tiers allowed to use the model. -/
structure ModelDescriptor where
  provider : String
  capabilities : List String
  allowed_subs : List String
deriving DecidableEq

/-- Model of `Settings.MODEL_CONFIG` from `backend/core/config.py`, in the dict's
insertion order. -/
def MODEL_CONFIG : List (String × ModelDescriptor) :=
  [("gpt-4-o",
    ⟨"openai",
      ["text", "strong code generation", "advanced reasoning", "general purpose"],
      ["pro", "enterprise"]⟩),
   ("mistral-7b",
    ⟨"huggingface",
      ["text", "fast summarization", "efficient for specific tasks"],
      ["free", "pro", "enterprise"]⟩),
   ("llama3-8b-local",
    ⟨"local",
      ["text", "fast translation", "on-device", "privacy-focused"],
      ["enterprise"]⟩)]

/-- Model of `settings.MODEL_CONFIG.get(name)`: dict lookup as `Option`. -/
def lookupModel (name : String) : Option ModelDescriptor :=
  (MODEL_CONFIG.find? (fun mc => mc.1 == name)).map Prod.snd

/-! ## Access policy (`backend/core/security.py`) -/

/-- The two failure modes of `validate_model_access`: HTTP 404 when the
model is not configured, HTTP 403 when the tier is not allowed. -/
inductive AccessError where
  | notFound
  | forbidden
deriving DecidableEq

/-- Model of `validate_model_access(requested_model, user_sub)` from
`backend/core/security.py`.  The Python code raises 404 when
`settings.MODEL_CONFIG.get(requested_model)` is falsy — for the concrete
`MODEL_CONFIG`, whose values are all non-empty dicts, that is exactly when
the key is absent — and 403 when `user_sub` is not in the model's
`allowed_subs` list; otherwise it returns normally. -/
def validate_model_access (requested_model user_sub : String) : Except AccessError Unit :=
  match lookupModel requested_model with
  | none => .error .notFound
  | some cfg =>
    if user_sub ∈ cfg.allowed_subs then .ok () else .error .forbidden

/-! ## The router (`backend/services/llm_router.py`) -/

/-- Model of `LLMRouter._get_available_models_for_sub`: the names of the configured
models whose `allowed_subs` contains `user_sub`, in the dict's iteration
order. -/
def getAvailableModelsForSub (user_sub : String) : List String :=
  (MODEL_CONFIG.filter (fun mc => decide (user_sub ∈ mc.2.allowed_subs))).map Prod.fst

/-- The auto-mode assignment loop of `route_and_process_prompts`:
`for i, prompt in enumerate(prompts): model_choice = allowed_models[i % len(allowed_models)]`,
collecting `{"micro_prompt": prompt, "model": model_choice}` pairs.  `i` is
the enumeration counter (the initial call passes `0`). -/
def roundRobinAssign (allowed : List String) : Nat → List String → List (String × String)
  | _, [] => []
  | i, p :: ps => (p, allowed.getD (i % allowed.length) "") :: roundRobinAssign allowed (i + 1) ps

/-- The provider dispatch of `route_and_process_prompts`: `call_openai` for
provider `"openai"`, `call_huggingface` for `"huggingface"`, and
`call_local` for anything else (the router's `else` branch).  The provider
clients are abstracted as the function `call provider prompt`. -/
def routerProviderCall (call : String → String → String) (provider prompt : String) : String :=
  if provider = "openai" then call "openai" prompt
  else if provider = "huggingface" then call "huggingface" prompt
  else call "local" prompt

/-- Model of `" ".join(filter(None, responses))`: drop empty strings, join the rest
with single spaces. -/
def joinResponses (rs : List String) : String :=
  String.mk (joinSpace ((rs.filter (fun r => !r.data.isEmpty)).map String.data))

/-- Model of `LLMRouter.route_and_process_prompts` from
`backend/services/llm_router.py`.  Provider calls are abstracted as `call`;
`asyncio.gather` preserves task order, so responses are collected in
assignment order.  The uncaught Python exceptions are modelled as
`Except.error` carrying the exception message: the explicit
`raise Exception("No models available for this subscription tier.")` when
auto mode finds no eligible model, and the `KeyError` from
`settings.MODEL_CONFIG[requested_model]` when a specifically requested
model is not configured (the chat endpoint validates access first, so that
lookup only fails if validation was skipped). -/
def route_and_process_prompts (call : String → String → String)
    (user_query subscription_tier requested_model : String) :
    Except String (String × List (String × String)) :=
  let prompts := split_prompt user_query
  if prompts.isEmpty then .ok ("Could not process the query.", [])
  else if requested_model = "auto" then
    let allowed := getAvailableModelsForSub subscription_tier
    if allowed.isEmpty then .error "No models available for this subscription tier."
    else
      let models_used := roundRobinAssign allowed 0 prompts
      let responses := models_used.map
        (fun pm => routerProviderCall call (((lookupModel pm.2).map ModelDescriptor.provider).getD "") pm.1)
      .ok (joinResponses responses, models_used)
  else
    match lookupModel requested_model with
    | none => .error ("KeyError: " ++ requested_model)
    | some cfg =>
      let models_used := prompts.map (fun p => (p, requested_model))
      let responses := prompts.map (fun p => routerProviderCall call cfg.provider p)
      .ok (joinResponses responses, models_used)

/-! ## The LangGraph agent (`backend/services/langgraph_agent.py`) -/

/-- Predicate that holds when `lookupModel m` yields a descriptor whose provider is one of
the three providers the LLM-caller node dispatches on. -/
def knownProvider (m : String) : Bool :=
  match lookupModel m with
  | some d => d.provider == "openai" || d.provider == "huggingface" || d.provider == "local"
  | none => false

/-- One task of `LangGraphAgent._llm_caller_node`:
`provider = self.model_config.get(model_name, {}).get("provider")`, then
`call_openai` / `call_huggingface` / `call_local` by provider, and
`asyncio.sleep(0, result=f"Error: Unknown provider for {model_name}")` for
any other provider (including an unconfigured model). -/
def dispatchOne (call : String → String → String) (prompt model : String) : String :=
  match lookupModel model with
  | some d =>
    if d.provider = "openai" then call "openai" prompt
    else if d.provider = "huggingface" then call "huggingface" prompt
    else if d.provider = "local" then call "local" prompt
    else "Error: Unknown provider for " ++ model
  | none => "Error: Unknown provider for " ++ model

/-- Model of `LangGraphAgent._llm_caller_node` from
`backend/services/langgraph_agent.py`.  `model_assignments` is a dict
(ordered association list); the task loop skips entries whose key is not in
`micro_prompts` (`if prompt not in state["micro_prompts"]: continue`) while
`llm_responses` is rebuilt by zipping *all* dict keys against the gathered
responses and filtering by the same membership test:

```python
llm_responses = {prompt: response
                 for prompt, response in zip(model_assignments.keys(), responses)
                 if prompt in state["micro_prompts"]}
```

The returned association list is the `llm_responses` dict. -/
def llmCallerNode (call : String → String → String) (micro_prompts : List String)
    (model_assignments : List (String × String)) : List (String × String) :=
  let tasks := (model_assignments.filter (fun pm => decide (pm.1 ∈ micro_prompts))).map
    (fun pm => dispatchOne call pm.1 pm.2)
  ((model_assignments.map Prod.fst).zip tasks).filter (fun pr => decide (pr.1 ∈ micro_prompts))

/-- The assignment-extraction step of `LangGraphAgent._research_agent`.
`jsonAssignments` stands for the outcome of
`re.search(r'\{.*\}', output_text, re.DOTALL)` followed by `json.loads`:
`some a` when a JSON object was found and parsed (its key/value pairs taken
as-is), `none` when no JSON object was found or parsing raised
`json.JSONDecodeError`.  Only in the `none` case does the code fall back to
`{prompt: available_models[0] for prompt in state["micro_prompts"]}`; a
parsed object is returned without any validation against
`available_models`. -/
def researchAssignments (jsonAssignments : Option (List (String × String)))
    (micro_prompts : List String) (available_models : List String) : List (String × String) :=
  match jsonAssignments with
  | some a => a
  | none => micro_prompts.map (fun p => (p, available_models.getD 0 ""))

/-- The two synthesis strategies of `LangGraphAgent._linkage_agent`. -/
inductive SynthesisStrategy where
  | codeAssembly
  | generic
deriving DecidableEq

/-- Substring test: `needle` occurs contiguously in `hay` (Python's
`kw in user_query` on strings). -/
def containsSub (needle : List Char) : List Char → Bool
  | [] => needle.isEmpty
  | c :: rest => needle.isPrefixOf (c :: rest) || containsSub needle rest

/-- Model of `is_code_task = all(kw in user_query for kw in ["html", "css", "js"])`
computed on `state["user_query"].lower()`. -/
def isCodeTask (user_query : String) : Bool :=
  containsSub "html".data user_query.toLower.data &&
  containsSub "css".data user_query.toLower.data &&
  containsSub "js".data user_query.toLower.data

/-- The strategy selection of `LangGraphAgent._linkage_agent`: the code
linkage chain when `is_code_task`, the generic linkage chain otherwise. -/
def linkageStrategy (user_query : String) : SynthesisStrategy :=
  if isCodeTask user_query then .codeAssembly else .generic

/-! ## The chat endpoint (`backend/routers/chat.py`)

Only the persistence-relevant slice of `process_chat` is modelled: the
routing call (step 3), the `save_chat_history` call (step 4) and the
response construction (step 5), together with the endpoint's exception
handling.  `SupabaseService.save_chat_history` wraps any storage failure in
`HTTPException(500, "Failed to save chat history")`; `process_chat` re-raises
every `HTTPException` (`except HTTPException as he: raise he`) and wraps any
other exception in `HTTPException(500, f"An unexpected error occurred: ...")`.
The router outcome and the storage outcome are parameters: `routeResult` is
what `route_and_process_prompts` returned (or the exception it raised), and
`persistOk` is whether the external database calls succeeded. -/

/-- What the HTTP caller receives from the `/chat` endpoint. -/
inductive ChatResult where
  | success (answer : String) (models : List (String × String))
  | httpError (status : Nat) (detail : String)
deriving DecidableEq

/-- The persistence-relevant slice of `process_chat` from
`backend/routers/chat.py` (steps 3–5 plus exception handling). -/
def process_chat (routeResult : Except String (String × List (String × String)))
    (persistOk : Bool) : ChatResult :=
  match routeResult with
  | .error e => .httpError 500 ("An unexpected error occurred: " ++ e)
  | .ok (resp, models) =>
    if persistOk then .success resp models
    else .httpError 500 "Failed to save chat history"

/-! ## Words lemmas

The word structure of a character list is invariant under everything the
splitter does: cutting at whitespace runs, stripping, dropping all-space
pieces, and re-joining with single spaces. -/

/-- Scanning across a whitespace character splits the word scan. -/
theorem wordsAux_append_space {c : Char} (hc : pySpace c = true) (ys : List Char) :
    ∀ (xs cur : List Char), wordsAux cur (xs ++ c :: ys) = wordsAux cur xs ++ wordsAux [] ys := by
  intro xs
  induction xs with
  | nil =>
    intro cur
    by_cases hcur : cur.isEmpty <;>
      simp [wordsAux, hc, hcur]
  | cons x xs ih =>
    intro cur
    by_cases hx : pySpace x
    · by_cases hcur : cur.isEmpty <;>
        simp [wordsAux, hx, hcur, ih]
    · simp [wordsAux, hx, ih]

/-- A leading whitespace character does not change the words. -/
theorem wordsOf_cons_space {c : Char} (hc : pySpace c = true) (l : List Char) :
    wordsOf (c :: l) = wordsOf l := by
  simp [wordsOf, wordsAux, hc]

/-- A whitespace character anywhere splits the words of a list. -/
theorem wordsOf_append_space {c : Char} (hc : pySpace c = true) (xs ys : List Char) :
    wordsOf (xs ++ c :: ys) = wordsOf xs ++ wordsOf ys :=
  wordsAux_append_space hc ys xs []

/-- A scan started on a non-empty current word produces at least one word. -/
theorem wordsAux_ne_nil (cur l : List Char) (h : cur ≠ []) : wordsAux cur l ≠ [] := by
  induction l generalizing cur with
  | nil => simp [wordsAux, List.isEmpty_iff, h]
  | cons c cs ih =>
    by_cases hc : pySpace c
    · have hne : cur.isEmpty = false := by simp [List.isEmpty_iff, h]
      simp [wordsAux, hc, hne]
    · simpa [wordsAux, hc] using ih (c :: cur) (by simp)

/-- A list has no words exactly when it is all whitespace. -/
theorem wordsOf_eq_nil_iff (l : List Char) :
    wordsOf l = [] ↔ ∀ c ∈ l, pySpace c = true := by
  induction l with
  | nil => simp [wordsOf, wordsAux]
  | cons c cs ih =>
    by_cases hc : pySpace c
    · rw [wordsOf_cons_space hc]
      simp [hc, ih]
    · have hw : wordsOf (c :: cs) = wordsAux [c] cs := by
        simp [wordsOf, wordsAux, hc]
      constructor
      · intro h
        rw [hw] at h
        exact absurd h (wordsAux_ne_nil [c] cs (by simp))
      · intro h
        exact absurd (h c (by simp)) (by simp [hc])

/-- Dropping leading whitespace does not change the words. -/
theorem wordsOf_dropWhile_space (l : List Char) :
    wordsOf (l.dropWhile pySpace) = wordsOf l := by
  induction l with
  | nil => rfl
  | cons c cs ih =>
    by_cases hc : pySpace c
    · rw [List.dropWhile_cons, if_pos hc, ih, wordsOf_cons_space hc]
    · rw [List.dropWhile_cons, if_neg (by simp [hc])]

/-- An all-whitespace suffix does not change the words. -/
theorem wordsOf_append_spaces_right (xs ys : List Char)
    (h : ∀ c ∈ ys, pySpace c = true) : wordsOf (xs ++ ys) = wordsOf xs := by
  cases ys with
  | nil => simp
  | cons c cs =>
    rw [wordsOf_append_space (h c (by simp)) xs cs,
      (wordsOf_eq_nil_iff cs).mpr (fun d hd => h d (by simp [hd])), List.append_nil]

/-- Right-stripping decomposes a list into the stripped part and an
all-whitespace tail. -/
theorem trimR_append_spaces (l : List Char) :
    l = trimR l ++ (l.reverse.takeWhile pySpace).reverse := by
  calc l = l.reverse.reverse := (List.reverse_reverse l).symm
    _ = (l.reverse.takeWhile pySpace ++ l.reverse.dropWhile pySpace).reverse := by
        rw [List.takeWhile_append_dropWhile]
    _ = trimR l ++ (l.reverse.takeWhile pySpace).reverse := by
        rw [List.reverse_append]; rfl

/-- Right-stripping does not change the words. -/
theorem wordsOf_trimR (l : List Char) : wordsOf (trimR l) = wordsOf l := by
  conv_rhs => rw [trimR_append_spaces l]
  rw [wordsOf_append_spaces_right]
  intro c hc
  rw [List.mem_reverse] at hc
  exact List.mem_takeWhile_imp hc

/-- Stripping does not change the words. -/
theorem wordsOf_pyStrip (l : List Char) : wordsOf (pyStrip l) = wordsOf l := by
  unfold pyStrip trimL
  rw [wordsOf_trimR, wordsOf_dropWhile_space]

/-- A list strips to nothing exactly when it is all whitespace. -/
theorem pyStrip_eq_nil_iff (l : List Char) :
    pyStrip l = [] ↔ ∀ c ∈ l, pySpace c = true := by
  constructor
  · intro h
    have hw := wordsOf_pyStrip l
    rw [h] at hw
    exact (wordsOf_eq_nil_iff l).mp hw.symm
  · intro h
    have hL : trimL l = [] := List.dropWhile_eq_nil_iff.mpr h
    simp [pyStrip, hL, trimR]

/-- Joining fragments with single spaces concatenates their words. -/
theorem joinSpace_words (fs : List (List Char)) :
    wordsOf (joinSpace fs) = (fs.map wordsOf).flatten := by
  induction fs with
  | nil => rfl
  | cons f rest ih =>
    cases rest with
    | nil => simp [joinSpace]
    | cons g rest' =>
      show wordsOf (f ++ ' ' :: joinSpace (g :: rest')) = _
      rw [wordsOf_append_space (by decide) f _, ih]
      simp

/-- Stripping each piece and dropping the pieces that strip to nothing
preserves the concatenated words. -/
theorem strip_filter_words (pieces : List (List Char)) :
    ((((pieces.map pyStrip).filter (fun f => !f.isEmpty)).map wordsOf).flatten) =
      ((pieces.map wordsOf).flatten) := by
  induction pieces with
  | nil => rfl
  | cons p ps ih =>
    simp only [List.map_cons, List.filter_cons]
    by_cases hp : (pyStrip p).isEmpty
    · have h1 : pyStrip p = [] := List.isEmpty_iff.mp hp
      have h2 : wordsOf p = [] := by
        rw [← wordsOf_pyStrip p, h1]; rfl
      simp [hp, ih, h2]
    · simp [hp, ih, wordsOf_pyStrip p]

/-- The regex scan cuts the input only inside whitespace runs, so the words
of the input are the concatenated words of the pieces (both scan modes). -/
theorem splitAuxC_words (rest : List Char) :
    (∀ acc, wordsOf (acc.reverse ++ rest) =
      ((splitAuxC false acc rest).map wordsOf).flatten) ∧
    (wordsOf rest = ((splitAuxC true [] rest).map wordsOf).flatten) := by
  induction rest with
  | nil =>
    constructor
    · intro acc
      simp [splitAuxC]
    · simp [splitAuxC]
  | cons c cs ih =>
    obtain ⟨ihF, ihT⟩ := ih
    constructor
    · intro acc
      by_cases hcond : (isTerminal c && headSpace cs) = true
      · have hsplit : splitAuxC false acc (c :: cs) = (acc.reverse ++ [c]) :: splitAuxC true [] cs := by
          simp [splitAuxC, hcond]
        rw [hsplit]
        cases cs with
        | nil => simp [headSpace] at hcond
        | cons d cs' =>
          have hd : pySpace d = true := by
            simp only [Bool.and_eq_true, headSpace] at hcond
            exact hcond.2
          rw [show acc.reverse ++ c :: d :: cs' = (acc.reverse ++ [c]) ++ d :: cs' by simp]
          rw [wordsOf_append_space hd]
          simp only [List.map_cons, List.flatten_cons]
          congr 1
          rw [← ihT]
          exact (wordsOf_cons_space hd cs').symm
      · have hstep : splitAuxC false acc (c :: cs) = splitAuxC false (c :: acc) cs := by
          simp [splitAuxC, hcond]
        rw [hstep, show acc.reverse ++ c :: cs = (c :: acc).reverse ++ cs by simp]
        exact ihF (c :: acc)
    · by_cases hc : pySpace c
      · have hstep : splitAuxC true [] (c :: cs) = splitAuxC true [] cs := by
          simp [splitAuxC, hc]
        rw [hstep, wordsOf_cons_space hc]
        exact ihT
      · by_cases hcond : (isTerminal c && headSpace cs) = true
        · have hsplit : splitAuxC true [] (c :: cs) = [c] :: splitAuxC true [] cs := by
            simp [splitAuxC, hc, hcond]
          rw [hsplit]
          cases cs with
          | nil => simp [headSpace] at hcond
          | cons d cs' =>
            have hd : pySpace d = true := by
              simp only [Bool.and_eq_true, headSpace] at hcond
              exact hcond.2
            simp only [List.map_cons, List.flatten_cons]
            rw [show (c :: d :: cs') = [c] ++ d :: cs' from rfl, wordsOf_append_space hd]
            congr 1
            rw [← ihT]
            exact (wordsOf_cons_space hd cs').symm
        · have hstep : splitAuxC true [] (c :: cs) = splitAuxC false [c] cs := by
            simp [splitAuxC, hc, hcond]
          rw [hstep]
          simpa using ihF [c]

/-! ## C5: the splitter contract -/

/-- C5: `split_prompt` yields the empty sequence exactly on empty or
whitespace-only input (so a non-whitespace input yields a non-empty
sequence), and the returned fragments, rejoined with single spaces, carry
exactly the words of the original query (lossless modulo whitespace).
The splitting-on-terminal-punctuation policy itself is the definition of
`splitAuxC`/`split_prompt`. -/
theorem split_prompt_spec (s : String) :
    (split_prompt s = [] ↔ ∀ c ∈ s.data, pySpace c = true) ∧
    wordsOf (joinSpace ((split_prompt s).map String.data)) = wordsOf s.data := by
  by_cases hs : s.data.isEmpty
  · have h0 : s.data = [] := List.isEmpty_iff.mp hs
    constructor
    · simp [split_prompt, hs, h0]
    · simp [split_prompt, hs, h0, joinSpace]
  · have hsp : split_prompt s =
        (((splitAuxC false [] s.data).map pyStrip).filter (fun f => !f.isEmpty)).map String.mk := by
      simp [split_prompt, hs]
    have hwords : wordsOf (joinSpace ((split_prompt s).map String.data)) = wordsOf s.data := by
      rw [hsp, List.map_map]
      have hdm : (String.data ∘ String.mk) = id := by
        funext l
        rfl
      rw [hdm, List.map_id, joinSpace_words, strip_filter_words]
      have hmain := (splitAuxC_words s.data).1 []
      simpa using hmain.symm
    refine ⟨⟨?_, ?_⟩, hwords⟩
    · intro h
      rw [h] at hwords
      have hnil : wordsOf s.data = [] := by
        simpa [joinSpace] using hwords.symm
      exact (wordsOf_eq_nil_iff _).mp hnil
    · intro h
      rw [hsp]
      have hw : wordsOf s.data = [] := (wordsOf_eq_nil_iff _).mpr h
      have hpieces := (splitAuxC_words s.data).1 []
      simp only [List.reverse_nil, List.nil_append] at hpieces
      rw [hw] at hpieces
      have hall : ∀ p ∈ splitAuxC false [] s.data, wordsOf p = [] := by
        intro p hp
        exact List.flatten_eq_nil_iff.mp hpieces.symm (wordsOf p) (List.mem_map_of_mem _ hp)
      have hfilter : ((splitAuxC false [] s.data).map pyStrip).filter (fun f => !f.isEmpty) = [] := by
        rw [List.filter_eq_nil_iff]
        intro a ha
        obtain ⟨p, hp, rfl⟩ := List.mem_map.mp ha
        have hstrip : pyStrip p = [] :=
          (pyStrip_eq_nil_iff p).mpr (fun c hc => (wordsOf_eq_nil_iff p).mp (hall p hp) c hc)
        simp [hstrip]
      rw [hfilter]
      rfl

/-! ## C1: the access check -/

/-- C1: for every model name `M` and tier `T`, `validate_model_access` fails
with `notFound` exactly when `M` is absent from the descriptor mapping,
fails with `forbidden` exactly when `M` is configured but `T` is not in its
`allowed_subs`, and succeeds otherwise. -/
theorem validate_model_access_trichotomy (M T : String) :
    (validate_model_access M T = .error .notFound ↔ lookupModel M = none) ∧
    (validate_model_access M T = .error .forbidden ↔
      ∃ d, lookupModel M = some d ∧ T ∉ d.allowed_subs) ∧
    (validate_model_access M T = .ok () ↔
      ∃ d, lookupModel M = some d ∧ T ∈ d.allowed_subs) := by
  unfold validate_model_access
  cases h : lookupModel M with
  | none => simp
  | some d =>
    by_cases hm : T ∈ d.allowed_subs <;> simp [hm]

/-! ## C2: round-robin assignment in auto mode -/

/-- The assignment loop indexed from an arbitrary counter value. -/
theorem roundRobinAssign_getD (allowed : List String) (ps : List String) :
    ∀ (i j : Nat), j < ps.length →
      (roundRobinAssign allowed i ps).getD j ("", "") =
        (ps.getD j "", allowed.getD ((i + j) % allowed.length) "") := by
  induction ps with
  | nil => intro i j h; simp at h
  | cons p ps ih =>
    intro i j h
    cases j with
    | zero => simp [roundRobinAssign]
    | succ j =>
      simp only [roundRobinAssign, List.getD_cons_succ]
      rw [show i + (j + 1) = (i + 1) + j by omega]
      exact ih (i + 1) j (by simpa using h)

/-- C2: in auto mode, with a non-empty eligible list of length `K`, the
`i`-th micro-prompt (0-indexed) is assigned `allowed[i % K]`; the router
invokes `roundRobinAssign allowed 0 prompts` for exactly this purpose. -/
theorem auto_round_robin_assignment (prompts allowed : List String) (h : allowed ≠ [])
    (i : Nat) (hi : i < prompts.length) :
    (roundRobinAssign allowed 0 prompts).getD i ("", "") =
      (prompts.getD i "", allowed.getD (i % allowed.length) "") := by
  simpa using roundRobinAssign_getD allowed prompts 0 i hi

/-- Witness for C2: `K = 2`, `N = 3`, `i = 2` is assigned `allowed[0]`. -/
theorem auto_round_robin_assignment_witness :
    (["m1", "m2"] : List String) ≠ [] ∧ 2 < (["a", "b", "c"] : List String).length ∧
    (roundRobinAssign ["m1", "m2"] 0 ["a", "b", "c"]).getD 2 ("", "") =
      (["a", "b", "c"].getD 2 "", ["m1", "m2"].getD (2 % (["m1", "m2"] : List String).length) "") :=
  ⟨by decide, by decide,
    auto_round_robin_assignment ["a", "b", "c"] ["m1", "m2"] (by decide) 2 (by decide)⟩

/-! ## C3: the dispatcher mispairs results when an assignment key is not a
micro-prompt

`_llm_caller_node` skips non-micro-prompt keys when building the task list
but zips the responses against *all* dict keys, so a skipped key shifts
every later response onto the wrong micro-prompt. -/

/-- C3 (failing run): with micro-prompts `["p", "q"]` and assignments
`{"x": mistral-7b, "p": mistral-7b, "q": mistral-7b}` (the key `"x"` is not
a micro-prompt), the dispatcher returns a single result in which `"p"` is
paired with the response to `"q"`'s provider call — fewer results than
assignments, and mispaired. -/
theorem llm_caller_mispairs :
    llmCallerNode (fun prov p => prov ++ ":" ++ p) ["p", "q"]
        [("x", "mistral-7b"), ("p", "mistral-7b"), ("q", "mistral-7b")] =
      [("p", "huggingface:q")] := by decide

/-! ## C4: the reasoning strategy keeps out-of-set model names -/

/-- C4 (failing run): when the researcher output parses to the JSON object
assigning `"bogus-model"` (not in the eligible set `["mistral-7b"]`) to the
micro-prompt `"task"`, `_research_agent` keeps the out-of-set name instead
of replacing it with the first eligible model. -/
theorem research_assignments_keep_out_of_set :
    researchAssignments (some [("task", "bogus-model")]) ["task"] ["mistral-7b"] =
      [("task", "bogus-model")] ∧ "bogus-model" ∉ (["mistral-7b"] : List String) := by decide

/-! ## C6: when `NoEligibleModels` is raised -/

/-- C6 (counterexample to the claim as stated): for the whitespace-only
query `""` and the tier `"basic"`, the eligible set is empty and yet the
router raises nothing — it returns the fixed failure message before the
eligibility check. -/
theorem no_eligible_not_raised_on_empty_split :
    getAvailableModelsForSub "basic" = [] ∧
    route_and_process_prompts (fun _ p => p) "" "basic" "auto" =
      .ok ("Could not process the query.", []) := by
  constructor
  · rfl
  · rfl

/-- C6 (amended): in auto mode the router raises the no-eligible-models
error iff the query splits into a non-empty prompt list *and* the eligible
set is empty; a query that splits to nothing short-circuits to the fixed
"Could not process the query." response without consulting eligibility. -/
theorem no_eligible_iff_nonempty_prompts (call : String → String → String) (q tier : String) :
    (∃ msg, route_and_process_prompts call q tier "auto" = .error msg) ↔
      (split_prompt q ≠ [] ∧ getAvailableModelsForSub tier = []) := by
  unfold route_and_process_prompts
  by_cases h1 : (split_prompt q).isEmpty
  · simp [h1, List.isEmpty_iff.mp h1]
  · have h1' : split_prompt q ≠ [] := fun hq => h1 (by simp [hq])
    by_cases h2 : (getAvailableModelsForSub tier).isEmpty
    · simp [h1, h2, List.isEmpty_iff.mp h2, h1']
    · have h2' : getAvailableModelsForSub tier ≠ [] := fun hg => h2 (by simp [hg])
      simp [h1, h2, h2']

/-! ## C7: persistence failure replaces the answer -/

/-- C7 (counterexample to the claim as stated): when routing/synthesis has
produced the answer `"ANSWER"` but persistence fails, the caller receives
the HTTP 500 storage error, not the synthesized answer. -/
theorem persistence_failure_drops_answer :
    process_chat (Except.ok ("ANSWER", [])) false =
      ChatResult.httpError 500 "Failed to save chat history" := rfl

/-- C7 (amended): a persistence failure after successful synthesis surfaces
as the distinct storage error HTTP 500 "Failed to save chat history" — it
never corrupts the answer into a different answer, but the caller does not
receive the synthesized answer; when persistence succeeds the answer is
returned unchanged. -/
theorem persistence_failure_distinct_error (answer : String) (models : List (String × String)) :
    process_chat (.ok (answer, models)) false =
        .httpError 500 "Failed to save chat history" ∧
      process_chat (.ok (answer, models)) true = .success answer models :=
  ⟨rfl, rfl⟩

/-! ## C8: unknown providers degrade to an error string -/

/-- When every assignment key is a micro-prompt, the dispatcher's zip is
aligned and it returns exactly one result per assignment entry, each keyed
by its own micro-prompt. -/
theorem llmCallerNode_eq_map (call : String → String → String) (micro : List String)
    (assigns : List (String × String)) (hkeys : ∀ pm ∈ assigns, pm.1 ∈ micro) :
    llmCallerNode call micro assigns =
      assigns.map (fun pm => (pm.1, dispatchOne call pm.1 pm.2)) := by
  unfold llmCallerNode
  rw [List.filter_eq_self.mpr (fun a ha => decide_eq_true (hkeys a ha))]
  simp only [show (Prod.fst : String × String → String) = fun pm => pm.1 from rfl,
    List.zip_map']
  refine List.filter_eq_self.mpr ?_
  intro a ha
  obtain ⟨pm, hpm, rfl⟩ := List.mem_map.mp ha
  exact decide_eq_true (hkeys pm hpm)

/-- A model whose provider is not `openai`/`huggingface`/`local` is
dispatched to the synthesized error string, not to a provider call. -/
theorem dispatchOne_unknown (call : String → String → String) (p m : String)
    (hunk : knownProvider m = false) :
    dispatchOne call p m = "Error: Unknown provider for " ++ m := by
  unfold knownProvider at hunk
  unfold dispatchOne
  cases h : lookupModel m with
  | none => rfl
  | some d =>
    rw [h] at hunk
    simp only [Bool.or_eq_false_iff, beq_eq_false_iff_ne, ne_eq] at hunk
    simp [hunk.1.1, hunk.1.2, hunk.2]

/-- C8: for every assignment entry whose model does not resolve to a known
provider, the dispatch (with all keys being micro-prompts, so that the zip
is aligned) yields the result string `"Error: Unknown provider for <model>"`
for that entry, and every other entry still yields its own result (one
result per assignment). -/
theorem unknown_provider_error_string (call : String → String → String)
    (micro : List String) (assigns : List (String × String))
    (hkeys : ∀ pm ∈ assigns, pm.1 ∈ micro)
    (p m : String) (hmem : (p, m) ∈ assigns) (hunk : knownProvider m = false) :
    (p, "Error: Unknown provider for " ++ m) ∈ llmCallerNode call micro assigns ∧
      (llmCallerNode call micro assigns).length = assigns.length := by
  rw [llmCallerNode_eq_map call micro assigns hkeys]
  refine ⟨?_, by simp⟩
  have hd := dispatchOne_unknown call p m hunk
  have := List.mem_map_of_mem (fun pm : String × String => (pm.1, dispatchOne call pm.1 pm.2)) hmem
  simpa [hd] using this

/-- Witness for C8: the unconfigured model `"ghost"` yields the error
string for its own micro-prompt `"a"`. -/
theorem unknown_provider_error_string_witness :
    knownProvider "ghost" = false ∧
      (("a", "Error: Unknown provider for " ++ "ghost") ∈
          llmCallerNode (fun _ _ => "") ["a"] [("a", "ghost")] ∧
        (llmCallerNode (fun _ _ => "") ["a"] [("a", "ghost")]).length =
          [("a", "ghost")].length) :=
  ⟨by decide,
    unknown_provider_error_string (fun _ _ => "") ["a"] [("a", "ghost")]
      (by decide) "a" "ghost" (by decide) (by decide)⟩

/-! ## C9: synthesis strategy selection -/

/-- C9: the code-assembly strategy is selected iff the lower-cased query
contains all three of the literal substrings "html", "css" and "js";
otherwise the generic strategy is selected. -/
theorem linkage_strategy_iff (q : String) :
    linkageStrategy q = .codeAssembly ↔
      (containsSub "html".data q.toLower.data = true ∧
        containsSub "css".data q.toLower.data = true ∧
        containsSub "js".data q.toLower.data = true) := by
  unfold linkageStrategy isCodeTask
  split_ifs with h
  · simp only [Bool.and_eq_true] at h
    exact iff_of_true rfl ⟨h.1.1, h.1.2, h.2⟩
  · constructor
    · intro hc
      exact absurd hc (by decide)
    · rintro ⟨h1, h2, h3⟩
      exact absurd (by simp [h1, h2, h3]) h

/-! ## C10: fragment invariants and idempotence

Every fragment returned by `split_prompt` is non-empty, already stripped,
and contains no terminal-punctuation-then-whitespace pair; hence splitting
a fragment again returns exactly that fragment. -/

/-- The head of `dropWhile p` does not satisfy `p`. -/
theorem dropWhile_head_not {α : Type} (p : α → Bool) (l : List α) :
    ∀ a, (l.dropWhile p).head? = some a → p a = false := by
  induction l with
  | nil =>
    intro a h
    simp at h
  | cons c cs ih =>
    intro a h
    rw [List.dropWhile_cons] at h
    by_cases hc : p c
    · rw [if_pos hc] at h
      exact ih a h
    · rw [if_neg (by simp [hc])] at h
      simp only [List.head?_cons, Option.some.injEq] at h
      subst h
      simpa using hc

/-- Function `List.dropWhile` is idempotent. -/
theorem dropWhile_idem {α : Type} (p : α → Bool) (l : List α) :
    (l.dropWhile p).dropWhile p = l.dropWhile p := by
  cases h : l.dropWhile p with
  | nil => rfl
  | cons c cs =>
    have hc : p c = false := dropWhile_head_not p l c (by rw [h]; rfl)
    rw [List.dropWhile_cons, if_neg (by simp [hc])]

/-- Right-stripping is idempotent. -/
theorem trimR_trimR (l : List Char) : trimR (trimR l) = trimR l := by
  unfold trimR
  rw [List.reverse_reverse]
  rw [dropWhile_idem]

/-- Left-stripping a list whose head is not whitespace changes nothing. -/
theorem trimL_eq_self {l : List Char}
    (h : ∀ a, l.head? = some a → pySpace a = false) : trimL l = l := by
  cases l with
  | nil => rfl
  | cons c cs =>
    have := h c rfl
    simp [trimL, List.dropWhile_cons, this]

/-- Right-stripping preserves the head of the list (when the result is
non-empty). -/
theorem trimR_head? (l : List Char) (a : Char) (h : (trimR l).head? = some a) :
    l.head? = some a := by
  conv_lhs => rw [trimR_append_spaces l]
  rw [List.head?_append, h]
  rfl

/-- Python `str.strip()` is idempotent. -/
theorem pyStrip_idem (l : List Char) : pyStrip (pyStrip l) = pyStrip l := by
  show trimR (trimL (trimR (trimL l))) = trimR (trimL l)
  rw [trimL_eq_self, trimR_trimR]
  intro a ha
  exact dropWhile_head_not pySpace l a (trimR_head? (trimL l) a ha)

/-- Applying `String.mk` then `String.data` is the identity on character lists. -/
theorem data_mk (l : List Char) : (String.mk l).data = l := rfl

/-- Every piece produced by the regex scan is free of split points.  In
normal mode the invariant is that the accumulated piece, extended by the
next input character, is split-point free (the scanner checked each pair as
it accumulated it); in skipping mode the accumulator is empty. -/
theorem splitAuxC_chain' (rest : List Char) :
    (∀ acc, List.Chain' noBreak (acc.reverse ++ rest.take 1) →
      ∀ p ∈ splitAuxC false acc rest, List.Chain' noBreak p) ∧
    (∀ p ∈ splitAuxC true [] rest, List.Chain' noBreak p) := by
  induction rest with
  | nil =>
    constructor
    · intro acc h p hp
      simp only [splitAuxC, List.mem_singleton] at hp
      subst hp
      simpa using h
    · intro p hp
      simp only [splitAuxC, List.mem_singleton] at hp
      subst hp
      simp
  | cons c cs ih =>
    obtain ⟨ihF, ihT⟩ := ih
    constructor
    · intro acc h p hp
      by_cases hcond : (isTerminal c && headSpace cs) = true
      · rw [show splitAuxC false acc (c :: cs) = (acc.reverse ++ [c]) :: splitAuxC true [] cs
            by simp [splitAuxC, hcond]] at hp
        rcases List.mem_cons.mp hp with rfl | hp'
        · simpa using h
        · exact ihT p hp'
      · rw [show splitAuxC false acc (c :: cs) = splitAuxC false (c :: acc) cs
            by simp [splitAuxC, hcond]] at hp
        refine ihF (c :: acc) ?_ p hp
        cases cs with
        | nil => simpa using h
        | cons d cs' =>
          simp only [List.reverse_cons, List.take_succ_cons, List.take_zero]
          refine List.chain'_append.mpr ⟨by simpa using h, List.chain'_singleton d, ?_⟩
          intro x hx y hy
          simp only [List.getLast?_concat, Option.mem_def, Option.some.injEq] at hx
          simp only [List.head?_cons, Option.mem_def, Option.some.injEq] at hy
          subst hx
          subst hy
          intro hcd
          apply hcond
          simp [headSpace, hcd.1, hcd.2]
    · intro p hp
      by_cases hc : pySpace c
      · rw [show splitAuxC true [] (c :: cs) = splitAuxC true [] cs
            by simp [splitAuxC, hc]] at hp
        exact ihT p hp
      · by_cases hcond : (isTerminal c && headSpace cs) = true
        · rw [show splitAuxC true [] (c :: cs) = [c] :: splitAuxC true [] cs
              by simp [splitAuxC, hc, hcond]] at hp
          rcases List.mem_cons.mp hp with rfl | hp'
          · exact List.chain'_singleton c
          · exact ihT p hp'
        · rw [show splitAuxC true [] (c :: cs) = splitAuxC false [c] cs
              by simp [splitAuxC, hc, hcond]] at hp
          refine ihF [c] ?_ p hp
          cases cs with
          | nil => simp
          | cons d cs' =>
            simp only [List.reverse_cons, List.reverse_nil, List.nil_append,
              List.take_succ_cons, List.take_zero, List.singleton_append, List.chain'_pair]
            intro hcd
            apply hcond
            simp [headSpace, hcd.1, hcd.2]

/-- A split-point-free suffix keeps one piece through the chain'd part of a
left-strip decomposition. -/
theorem chain'_trimL {l : List Char} (h : List.Chain' noBreak l) :
    List.Chain' noBreak (trimL l) := by
  have hdec : l = l.takeWhile pySpace ++ trimL l :=
    (List.takeWhile_append_dropWhile (p := pySpace) (l := l)).symm
  rw [hdec] at h
  exact (List.chain'_append.mp h).2.1

/-- Right-stripping preserves split-point freedom. -/
theorem chain'_trimR {l : List Char} (h : List.Chain' noBreak l) :
    List.Chain' noBreak (trimR l) := by
  rw [trimR_append_spaces l] at h
  exact (List.chain'_append.mp h).1

/-- Stripping preserves split-point freedom. -/
theorem chain'_pyStrip {l : List Char} (h : List.Chain' noBreak l) :
    List.Chain' noBreak (pyStrip l) :=
  chain'_trimR (chain'_trimL h)

/-- A split-point-free input is never cut: the scan returns the single
piece consisting of the accumulator and the whole input. -/
theorem splitAuxC_no_break : ∀ (l : List Char), List.Chain' noBreak l →
    ∀ acc, splitAuxC false acc l = [acc.reverse ++ l] := by
  intro l
  induction l with
  | nil =>
    intro _ acc
    simp [splitAuxC]
  | cons c cs ih =>
    intro h acc
    have hcond : (isTerminal c && headSpace cs) = false := by
      cases cs with
      | nil => simp [headSpace]
      | cons d cs' =>
        obtain ⟨hcd, -⟩ := List.chain'_cons.mp h
        by_cases hT : isTerminal c = true
        · by_cases hD : pySpace d = true
          · exact absurd ⟨hT, hD⟩ hcd
          · simp [headSpace, hD]
        · simp [hT]
    rw [show splitAuxC false acc (c :: cs) = splitAuxC false (c :: acc) cs
        by simp [splitAuxC, hcond]]
    rw [ih h.tail (c :: acc)]
    simp

/-- Unfolding `split_prompt` on a non-empty raw character list. -/
theorem split_prompt_mk (l : List Char) (hl : l.isEmpty = false) :
    split_prompt (String.mk l) =
      (((splitAuxC false [] l).map pyStrip).filter (fun f => !f.isEmpty)).map String.mk := by
  simp [split_prompt, data_mk, hl]

/-! ## C10: the claim theorem -/

/-- C10: every fragment returned by `split_prompt` is non-empty, is equal
to its own strip (no surrounding whitespace), contains no occurrence of
terminal punctuation immediately followed by whitespace, and is a fixed
point: `split_prompt` on the fragment returns exactly that fragment. -/
theorem split_prompt_fragments (s f : String) (hf : f ∈ split_prompt s) :
    f.data ≠ [] ∧ pyStrip f.data = f.data ∧ List.Chain' noBreak f.data ∧
      split_prompt f = [f] := by
  unfold split_prompt at hf
  by_cases hs : s.data.isEmpty
  · simp [hs] at hf
  · rw [if_neg hs] at hf
    obtain ⟨g, hg, rfl⟩ := List.mem_map.mp hf
    obtain ⟨hg1, hg2⟩ := List.mem_filter.mp hg
    obtain ⟨p, hp, rfl⟩ := List.mem_map.mp hg1
    have hne : pyStrip p ≠ [] := by
      intro hcontra
      rw [hcontra] at hg2
      simp at hg2
    have hchain_p : List.Chain' noBreak p := by
      refine (splitAuxC_chain' s.data).1 [] ?_ p hp
      cases s.data with
      | nil => simp
      | cons a t => simp [List.chain'_singleton]
    have hchain : List.Chain' noBreak (pyStrip p) := chain'_pyStrip hchain_p
    have hidem : pyStrip (pyStrip p) = pyStrip p := pyStrip_idem p
    have hbool : (pyStrip p).isEmpty = false := by
      cases hx : (pyStrip p).isEmpty
      · rfl
      · exact absurd (List.isEmpty_iff.mp hx) hne
    refine ⟨hne, hidem, hchain, ?_⟩
    rw [split_prompt_mk (pyStrip p) hbool]
    rw [splitAuxC_no_break (pyStrip p) hchain []]
    simp only [List.reverse_nil, List.nil_append, List.map_cons, List.map_nil, hidem,
      List.filter_cons, hbool]
    simp

/-- Witness for C10: the first fragment of `"One two. Three!"`. -/
theorem split_prompt_fragments_witness :
    (("One two." : String) ∈ split_prompt "One two. Three!") ∧
      (("One two." : String).data ≠ [] ∧
        pyStrip ("One two." : String).data = ("One two." : String).data ∧
        List.Chain' noBreak ("One two." : String).data ∧
        split_prompt "One two." = ["One two."]) :=
  ⟨by decide, split_prompt_fragments "One two. Three!" "One two." (by decide)⟩
